import Mathlib

/-!
Verification of the instance-accounting module (`accounting.py`).

The module computes billing charges for compute instances from their lifecycle
action history.  We give a shallow embedding of its three stages:

* `get_actions_for_instance` — the event filter / normalizer,
* `get_charge_intervals_for_instance` — the interval reconstructor
  (its post-fetch body is `charge_intervals_from_actions`),
* `get_total_charge_from_intervals` — the charge calculator loop.

Timestamps are parsed datetimes in the source; we model an instant as a
rational number of seconds (the only operations the source performs on
datetimes are comparison and subtraction followed by `total_seconds()`).
Python dict lookups that can raise `KeyError`, list indexing that can raise
`IndexError`, and explicit `raise` statements are modelled by returning
`Except PyError`.  The external collaborator calls (`conn.compute.*`) are
modelled by passing their responses as arguments.
-/

namespace Accounting

/-- An action record, the source's `{"action": ..., "time": ...}` dict built at
line 58; `time` is the parsed timestamp, modelled as a rational number of
seconds. -/
structure Action where
  action : String
  time : ℚ
deriving DecidableEq

/-- A charge interval, the source's `{"start": ..., "end": ..., "state": ...}`
dict (`stop` models the `"end"` key, which is not a usable Lean identifier). -/
structure Interval where
  start : ℚ
  stop : ℚ
  state : String
deriving DecidableEq

/-- The failure modes of the Python code, one constructor per `raise` site or
unchecked partial operation. -/
inductive PyError where
  /-- `ValueError("End datetime cannot be before start datetime!")`, line 73. -/
  | invalidRange : PyError
  /-- `IndexError` from `actions[0]` at line 64 when the filtered history is
  empty; the spec names this failure point `EmptyHistoryError` (raw-empty
  stage). -/
  | emptyHistoryRaw : PyError
  /-- `Exception("Action history is empty!")`, line 81; the spec names this
  failure point `EmptyHistoryError` (window-empty stage). -/
  | emptyHistoryWindow : PyError
  /-- `KeyError` from a dict lookup miss in one of the multiplier / state
  tables. -/
  | keyError : PyError
  /-- `ValueError` from `original_name.index(".")` at line 130 when the flavor
  name contains no dot. -/
  | valueErrorIndex : PyError
deriving DecidableEq

instance {ε α : Type} [DecidableEq ε] [DecidableEq α] :
    DecidableEq (Except ε α) := fun x y =>
  match x, y with
  | .ok a, .ok b =>
    if h : a = b then .isTrue (by rw [h]) else
      .isFalse (by intro hc; cases hc; exact h rfl)
  | .error e, .error f =>
    if h : e = f then .isTrue (by rw [h]) else
      .isFalse (by intro hc; cases hc; exact h rfl)
  | .ok _, .error _ => .isFalse (by intro hc; cases hc)
  | .error _, .ok _ => .isFalse (by intro hc; cases hc)

/-- `RELEVANT_EVENTS`, lines 6-17. -/
def RELEVANT_EVENTS : List String :=
  ["create", "delete", "pause", "resume", "shelve", "start", "stop", "suspend",
   "unpause", "unshelve"]

/-- `ACTION_TO_STATE_LOOKUP`, lines 20-31, as an association list. -/
def ACTION_TO_STATE_LOOKUP : List (String × String) :=
  [("create", "active"), ("delete", "deleted"), ("pause", "suspended"),
   ("resume", "active"), ("shelve", "shelved_offloaded"), ("start", "active"),
   ("stop", "stopped"), ("suspend", "suspended"), ("unpause", "active"),
   ("unshelve", "active")]

/-- `STATE_CHARGE_MULTIPLIERS`, lines 33-43, as an association list. -/
def STATE_CHARGE_MULTIPLIERS : List (String × ℚ) :=
  [("active", 1), ("deleted", 0), ("error", 0), ("not_yet_created", 0),
   ("paused", 0.75), ("resized", 1), ("shelved_offloaded", 0),
   ("stopped", 0.5), ("suspended", 0.75)]

/-- `FLAVOR_TYPE_CHARGE_MULTIPLIERS`, lines 45-51, as an association list. -/
def FLAVOR_TYPE_CHARGE_MULTIPLIERS : List (String × ℚ) :=
  [("m3", 1), ("g3", 2), ("g3p", 0), ("r3", 2), ("p3", 1)]

/-- The comparison used by `actions.sort(key=lambda action: action["time"])`,
line 61. -/
def actionLE (a b : Action) : Prop := a.time ≤ b.time

instance : DecidableRel actionLE :=
  fun a b => inferInstanceAs (Decidable (a.time ≤ b.time))

instance : IsTotal Action actionLE := ⟨fun a b => le_total a.time b.time⟩

instance : IsTrans Action actionLE := ⟨fun _ _ _ h h2 => le_trans h h2⟩

/-- `get_actions_for_instance`, lines 54-67, with the collaborator responses
passed as arguments: `raw` models `conn.compute.server_actions(instance_id)`
after timestamp parsing, and `created_at` models the parsed
`conn.compute.get_server(instance_id).created_at`.  Python's `list.sort` is a
stable sort; we model it by insertion sort on `actionLE`, which is likewise
stable.  When the filtered history is empty the source crashes with an
`IndexError` at `actions[0]` (line 64), modelled by `.emptyHistoryRaw`. -/
def get_actions_for_instance (raw : List Action) (created_at : ℚ) :
    Except PyError (List Action) :=
  let actions := raw.filter (fun a => decide (a.action ∈ RELEVANT_EVENTS))
  let actions := actions.insertionSort actionLE
  match actions with
  | [] => .error .emptyHistoryRaw
  | a :: rest =>
    if a.action ≠ "create" then
      .ok ({ action := "create", time := created_at } :: a :: rest)
    else
      .ok (a :: rest)

/-- The scan at lines 90-94: walk the actions in order, recording the mapped
state of every action with `time <= start`, and break at the first action past
`start`.  `acc` is the running value of the `starting_state` variable. -/
def stateScan (start : ℚ) : List Action → String → Except PyError String
  | [], acc => .ok acc
  | a :: rest, acc =>
    if a.time ≤ start then
      match ACTION_TO_STATE_LOOKUP.lookup a.action with
      | some s => stateScan start rest s
      | none => .error .keyError
    else
      .ok acc

/-- Lines 83-94: the state of the instance at the window start.  The `[]` case
is unreachable in the source (guarded by the length check at line 80). -/
def startingState (actions : List Action) (start : ℚ) : Except PyError String :=
  match actions with
  | [] => .ok ""
  | a :: rest =>
    if start ≤ a.time then .ok "deleted"
    else stateScan start (a :: rest) ""

/-- The loop at lines 107-121: one interval per remaining action, from its
timestamp to the next action's timestamp, the last one capped at the window
end. -/
def buildIntervals (stop : ℚ) : List Action → Except PyError (List Interval)
  | [] => .ok []
  | [a] =>
    match ACTION_TO_STATE_LOOKUP.lookup a.action with
    | some s => .ok [{ start := a.time, stop := stop, state := s }]
    | none => .error .keyError
  | a :: b :: rest =>
    match ACTION_TO_STATE_LOOKUP.lookup a.action with
    | some s =>
      match buildIntervals stop (b :: rest) with
      | .ok ivs => .ok ({ start := a.time, stop := b.time, state := s } :: ivs)
      | .error e => .error e
    | none => .error .keyError

/-- Lines 77-122 of `get_charge_intervals_for_instance`: the interval
reconstruction proper, applied to an already-fetched action list. -/
def charge_intervals_from_actions (actions : List Action) (start stop : ℚ) :
    Except PyError (List Interval) :=
  match actions.filter (fun a => decide (a.time < stop)) with
  | [] => .error .emptyHistoryWindow
  | a :: rest =>
    match startingState (a :: rest) start with
    | .error e => .error e
    | .ok s0 =>
      match (a :: rest).filter (fun x => decide (start ≤ x.time)) with
      | [] => .ok [{ start := start, stop := stop, state := s0 }]
      | b :: within =>
        match buildIntervals stop (b :: within) with
        | .ok ivs => .ok ({ start := start, stop := b.time, state := s0 } :: ivs)
        | .error e => .error e

/-- `get_charge_intervals_for_instance`, lines 71-122, with the collaborator
responses passed as arguments (see `get_actions_for_instance`). -/
def get_charge_intervals_for_instance (raw : List Action) (created_at : ℚ)
    (start stop : ℚ) : Except PyError (List Interval) :=
  if stop < start then .error .invalidRange
  else
    match get_actions_for_instance raw created_at with
    | .error e => .error e
    | .ok actions => charge_intervals_from_actions actions start stop

/-- The summation loop at lines 132-138: `total` is the running value of the
`total_charge` variable; each step adds
`interval_duration_hours * state_mult * vcpus * flavor_mult`. -/
def chargeLoop (vcpus : ℚ) (flavor_family : String) :
    List Interval → ℚ → Except PyError ℚ
  | [], total => .ok total
  | iv :: rest, total =>
    match STATE_CHARGE_MULTIPLIERS.lookup iv.state with
    | none => .error .keyError
    | some sm =>
      match FLAVOR_TYPE_CHARGE_MULTIPLIERS.lookup flavor_family with
      | none => .error .keyError
      | some fm =>
        chargeLoop vcpus flavor_family rest
          (total + ((iv.stop - iv.start) / 3600) * (sm * vcpus * fm))

/-- Lines 132-140 of `get_total_charge_for_instance`: the charge of an interval
list, given the flavor's vcpu count and family (the prefix computed at
line 130). -/
def get_total_charge_from_intervals (intervals : List Interval) (vcpus : ℚ)
    (flavor_family : String) : Except PyError ℚ :=
  chargeLoop vcpus flavor_family intervals 0

/-- Line 130: `original_name[:original_name.index(".")]`; `index` raises
`ValueError` when the name has no dot. -/
def flavor_family_of (original_name : String) : Except PyError String :=
  if original_name.contains '.' then
    .ok (original_name.takeWhile (fun c => c != '.'))
  else
    .error .valueErrorIndex

/-- `get_total_charge_for_instance`, lines 126-140, with the collaborator
responses (`raw`, `created_at`, the flavor's `original_name` and `vcpus`)
passed as arguments. -/
def get_total_charge_for_instance (raw : List Action) (created_at : ℚ)
    (original_name : String) (vcpus : ℚ) (start stop : ℚ) :
    Except PyError ℚ :=
  match get_charge_intervals_for_instance raw created_at start stop with
  | .error e => .error e
  | .ok intervals =>
    match flavor_family_of original_name with
    | .error e => .error e
    | .ok fam => get_total_charge_from_intervals intervals vcpus fam

/-!
Spec-side definitions, used to compare the reconstruction against the spec's
own wording (sections 3 and 4.2 of the design document).
-/

/-- The spec's total `ACTION_TO_STATE` mapping on relevant action kinds
(section 3); irrelevant kinds, which the spec excludes from the domain, are
given a default placeholder. -/
def ACTION_TO_STATE (kind : String) : String :=
  (ACTION_TO_STATE_LOOKUP.lookup kind).getD ""

/-- The starting state as the spec words it (section 4.2): `deleted` when the
window start is at or before the earliest remaining action, otherwise the
mapped state of the last action whose timestamp is at most the window start
(last-one-wins under ties). -/
def spec_start_state (actions : List Action) (start : ℚ) : String :=
  match actions with
  | [] => "deleted"
  | a :: _ =>
    if start ≤ a.time then "deleted"
    else
      match (actions.filter (fun x => decide (x.time ≤ start))).getLast? with
      | some b => ACTION_TO_STATE b.action
      | none => "deleted"

/-- The per-action intervals as the spec words them (section 4.2): for each
action the interval from its timestamp to the next action's timestamp, the
final one capped at the window end. -/
def spec_action_intervals (actions : List Action) (stop : ℚ) : List Interval :=
  (actions.zip (actions.tail.map Action.time ++ [stop])).map
    (fun p => { start := p.1.time, stop := p.2,
                state := ACTION_TO_STATE p.1.action })

/-- The full reconstruction as the spec words it (section 4.2): drop actions at
or past the window end, compute the starting state, drop actions before the
window start, and either emit the single full-window interval or the
starting-state prefix followed by the per-action intervals. -/
def spec_reconstruct (actions : List Action) (start stop : ℚ) : List Interval :=
  let acts := actions.filter (fun a => decide (a.time < stop))
  let s0 := spec_start_state acts start
  match acts.filter (fun a => decide (start ≤ a.time)) with
  | [] => [{ start := start, stop := stop, state := s0 }]
  | b :: within =>
    { start := start, stop := b.time, state := s0 } ::
      spec_action_intervals (b :: within) stop

/-! Helper lemmas about the lookup tables. -/

/-- A successful association-list lookup returns one of the stored values. -/
theorem lookup_mem_snd {α β : Type} [BEq α] :
    ∀ {l : List (α × β)} {k : α} {v : β},
      l.lookup k = some v → v ∈ l.map Prod.snd := by
  intro l
  induction l with
  | nil => intro k v h; simp [List.lookup] at h
  | cons p rest ih =>
    intro k v h
    obtain ⟨a, b⟩ := p
    rw [List.lookup_cons] at h
    cases hk : k == a with
    | true => rw [hk] at h; simp_all
    | false =>
      rw [hk] at h
      simp only [List.map_cons, List.mem_cons]
      exact Or.inr (ih h)

/-- Every relevant action kind has an entry in the action-to-state table, and
that entry is the spec's total `ACTION_TO_STATE` value. -/
theorem relevant_lookup :
    ∀ k ∈ RELEVANT_EVENTS,
      ACTION_TO_STATE_LOOKUP.lookup k = some (ACTION_TO_STATE k) := by
  decide

/-- Every value of the action-to-state table is one of the five reachable
states, and each of those has a charge multiplier. -/
theorem action_state_values :
    ∀ v ∈ ACTION_TO_STATE_LOOKUP.map Prod.snd,
      v ∈ ["active", "deleted", "suspended", "shelved_offloaded", "stopped"] ∧
        (STATE_CHARGE_MULTIPLIERS.lookup v).isSome := by
  decide

/-! Helper lemmas about the spec-side interval builder. -/

theorem spec_action_intervals_nil (stop : ℚ) :
    spec_action_intervals [] stop = [] := rfl

theorem spec_action_intervals_singleton (a : Action) (stop : ℚ) :
    spec_action_intervals [a] stop =
      [{ start := a.time, stop := stop, state := ACTION_TO_STATE a.action }] :=
  rfl

theorem spec_action_intervals_cons_cons (a b : Action) (rest : List Action)
    (stop : ℚ) :
    spec_action_intervals (a :: b :: rest) stop =
      { start := a.time, stop := b.time,
        state := ACTION_TO_STATE a.action } ::
        spec_action_intervals (b :: rest) stop := by
  simp [spec_action_intervals]

theorem spec_action_intervals_head (a : Action) (rest : List Action) (stop : ℚ) :
    ((spec_action_intervals (a :: rest) stop).head?).map Interval.start =
      some a.time := by
  cases rest with
  | nil => simp [spec_action_intervals_singleton]
  | cons b rest2 => simp [spec_action_intervals_cons_cons]

theorem spec_action_intervals_last (stop : ℚ) :
    ∀ (a : Action) (rest : List Action),
      ((spec_action_intervals (a :: rest) stop).getLast?).map Interval.stop =
        some stop := by
  intro a rest
  induction rest generalizing a with
  | nil => simp [spec_action_intervals_singleton]
  | cons b rest2 ih =>
    rw [spec_action_intervals_cons_cons]
    have hb := ih b
    cases hsp : spec_action_intervals (b :: rest2) stop with
    | nil => rw [hsp] at hb; simp at hb
    | cons iv ivs =>
      rw [hsp] at hb
      rw [List.getLast?_cons_cons]
      exact hb

theorem spec_action_intervals_chain (stop : ℚ) :
    ∀ l : List Action,
      (spec_action_intervals l stop).Chain' (fun i j => i.stop = j.start) := by
  intro l
  induction l with
  | nil => simp [spec_action_intervals_nil]
  | cons a rest ih =>
    cases rest with
    | nil => simp [spec_action_intervals_singleton]
    | cons b rest2 =>
      rw [spec_action_intervals_cons_cons]
      cases rest2 with
      | nil =>
        rw [spec_action_intervals_singleton]
        exact List.chain'_cons.mpr ⟨rfl, List.chain'_singleton _⟩
      | cons c rest3 =>
        rw [spec_action_intervals_cons_cons]
        rw [spec_action_intervals_cons_cons] at ih
        exact List.chain'_cons.mpr ⟨rfl, ih⟩

theorem spec_action_intervals_le (stop : ℚ) :
    ∀ l : List Action, l.Pairwise actionLE → (∀ a ∈ l, a.time ≤ stop) →
      ∀ iv ∈ spec_action_intervals l stop, iv.start ≤ iv.stop := by
  intro l
  induction l with
  | nil => intro _ _ iv hiv; simp [spec_action_intervals_nil] at hiv
  | cons a rest ih =>
    intro hsort hle iv hiv
    cases rest with
    | nil =>
      rw [spec_action_intervals_singleton] at hiv
      simp at hiv
      subst hiv
      exact hle a (by simp)
    | cons b rest2 =>
      rw [spec_action_intervals_cons_cons] at hiv
      rcases List.mem_cons.mp hiv with h | h
      · subst h
        exact (List.pairwise_cons.mp hsort).1 b (by simp)
      · exact ih (List.pairwise_cons.mp hsort).2
          (fun x hx => hle x (List.mem_cons_of_mem a hx)) iv h

/-! Relating the code's starting-state scan to the spec's description. -/

/-- On a sorted list of relevant actions the scan returns the mapped state of
the *last* action at or before `start`, or the accumulator when there is no
such action. -/
theorem stateScan_eq (start : ℚ) :
    ∀ (l : List Action) (acc : String), l.Pairwise actionLE →
      (∀ x ∈ l, x.action ∈ RELEVANT_EVENTS) →
      stateScan start l acc =
        .ok (match (l.filter (fun x => decide (x.time ≤ start))).getLast? with
             | some b => ACTION_TO_STATE b.action
             | none => acc) := by
  intro l
  induction l with
  | nil => intro acc _ _; simp [stateScan]
  | cons a rest ih =>
    intro acc hsort hrel
    by_cases ha : a.time ≤ start
    · simp only [stateScan, if_pos ha,
        relevant_lookup a.action (hrel a (List.mem_cons_self a rest))]
      rw [ih (ACTION_TO_STATE a.action) (List.pairwise_cons.mp hsort).2
          (fun x hx => hrel x (List.mem_cons_of_mem a hx))]
      have hfa : (a :: rest).filter (fun x => decide (x.time ≤ start)) =
          a :: rest.filter (fun x => decide (x.time ≤ start)) := by
        simp [List.filter_cons, ha]
      rw [hfa]
      cases hfr : rest.filter (fun x => decide (x.time ≤ start)) with
      | nil => simp
      | cons c cs =>
        rw [List.getLast?_cons_cons]
        cases hg : (c :: cs).getLast? with
        | none => simp at hg
        | some b => rfl
    · rw [stateScan, if_neg ha]
      have hfa : (a :: rest).filter (fun x => decide (x.time ≤ start)) = [] := by
        rw [List.filter_eq_nil_iff]
        intro x hx
        rcases List.mem_cons.mp hx with h | h
        · subst h; simpa using ha
        · have := (List.pairwise_cons.mp hsort).1 x h
          simp only [decide_eq_true_eq]
          intro hc
          exact ha (le_trans this hc)
      rw [hfa]
      simp

/-- The code's starting-state computation agrees with the spec's wording on a
non-empty sorted list of relevant actions. -/
theorem startingState_eq_spec (a : Action) (rest : List Action) (start : ℚ)
    (hsort : (a :: rest).Pairwise actionLE)
    (hrel : ∀ x ∈ a :: rest, x.action ∈ RELEVANT_EVENTS) :
    startingState (a :: rest) start =
      .ok (spec_start_state (a :: rest) start) := by
  rw [startingState, spec_start_state]
  by_cases h0 : start ≤ a.time
  · rw [if_pos h0, if_pos h0]
  · rw [if_neg h0, if_neg h0, stateScan_eq start (a :: rest) "" hsort hrel]
    have hmem : a ∈ (a :: rest).filter (fun x => decide (x.time ≤ start)) := by
      simp only [List.mem_filter, decide_eq_true_eq]
      exact ⟨List.mem_cons_self a rest, le_of_lt (lt_of_not_le h0)⟩
    cases hf : (a :: rest).filter (fun x => decide (x.time ≤ start)) with
    | nil => rw [hf] at hmem; simp at hmem
    | cons c cs => rfl

/-- The code's interval-building loop agrees with the spec's wording when every
action kind is relevant. -/
theorem buildIntervals_eq_spec (stop : ℚ) :
    ∀ l : List Action, (∀ a ∈ l, a.action ∈ RELEVANT_EVENTS) →
      buildIntervals stop l = .ok (spec_action_intervals l stop) := by
  intro l
  induction l with
  | nil => intro _; rfl
  | cons a rest ih =>
    intro hrel
    cases rest with
    | nil =>
      rw [buildIntervals,
        relevant_lookup a.action (hrel a (List.mem_cons_self a [])),
        spec_action_intervals_singleton]
    | cons b rest2 =>
      rw [buildIntervals,
        relevant_lookup a.action (hrel a (List.mem_cons_self a (b :: rest2))),
        ih (fun x hx => hrel x (List.mem_cons_of_mem a hx)),
        spec_action_intervals_cons_cons]

/-- The code's reconstruction agrees with the spec's wording on a sorted list
of relevant actions, provided some action survives the window-end filter. -/
theorem charge_intervals_eq_spec (actions : List Action) (start stop : ℚ)
    (hsort : actions.Pairwise actionLE)
    (hrel : ∀ a ∈ actions, a.action ∈ RELEVANT_EVENTS)
    (hne : actions.filter (fun a => decide (a.time < stop)) ≠ []) :
    charge_intervals_from_actions actions start stop =
      .ok (spec_reconstruct actions start stop) := by
  cases hf : actions.filter (fun a => decide (a.time < stop)) with
  | nil => exact absurd hf hne
  | cons a rest =>
    have hsort2 : (a :: rest).Pairwise actionLE :=
      hf ▸ List.Pairwise.filter _ hsort
    have hrel2 : ∀ x ∈ a :: rest, x.action ∈ RELEVANT_EVENTS := by
      intro x hx
      rw [← hf] at hx
      exact hrel x (List.mem_filter.mp hx).1
    simp only [charge_intervals_from_actions, spec_reconstruct, hf,
      startingState_eq_spec a rest start hsort2 hrel2]
    cases hg : (a :: rest).filter (fun x => decide (start ≤ x.time)) with
    | nil => rfl
    | cons b within =>
      have hrel3 : ∀ x ∈ b :: within, x.action ∈ RELEVANT_EVENTS := by
        intro x hx
        rw [← hg] at hx
        exact hrel2 x (List.mem_filter.mp hx).1
      simp only [buildIntervals_eq_spec stop (b :: within) hrel3]

/-! Facts about the normalizer's successful results. -/

theorem get_actions_ok_mem {raw : List Action} {created_at : ℚ}
    {acts : List Action}
    (h : get_actions_for_instance raw created_at = .ok acts) :
    ∀ x ∈ acts, x.action ∈ RELEVANT_EVENTS := by
  simp only [get_actions_for_instance] at h
  cases hs : (raw.filter
      (fun a => decide (a.action ∈ RELEVANT_EVENTS))).insertionSort actionLE with
  | nil => rw [hs] at h; exact absurd h (by simp)
  | cons a rest =>
    rw [hs] at h
    dsimp only at h
    have hmem : ∀ x ∈ a :: rest, x.action ∈ RELEVANT_EVENTS := by
      intro x hx
      rw [← hs] at hx
      have := (List.mem_filter.mp ((List.mem_insertionSort actionLE).mp hx)).2
      simpa using this
    by_cases hc : a.action ≠ "create"
    · rw [if_pos hc] at h
      injection h with h
      subst h
      intro x hx
      rcases List.mem_cons.mp hx with h | h
      · subst h
        show "create" ∈ RELEVANT_EVENTS
        decide
      · exact hmem x h
    · rw [if_neg hc] at h
      injection h with h
      subst h
      exact hmem

theorem get_actions_ok_sorted {raw : List Action} {created_at : ℚ}
    {acts : List Action}
    (hcreated : ∀ x ∈ raw, x.action ∈ RELEVANT_EVENTS → created_at ≤ x.time)
    (h : get_actions_for_instance raw created_at = .ok acts) :
    acts.Pairwise actionLE := by
  simp only [get_actions_for_instance] at h
  have hsorted : ((raw.filter
      (fun a => decide (a.action ∈ RELEVANT_EVENTS))).insertionSort
        actionLE).Pairwise actionLE :=
    List.sorted_insertionSort actionLE _
  cases hs : (raw.filter
      (fun a => decide (a.action ∈ RELEVANT_EVENTS))).insertionSort actionLE with
  | nil => rw [hs] at h; exact absurd h (by simp)
  | cons a rest =>
    rw [hs] at h hsorted
    dsimp only at h
    by_cases hc : a.action ≠ "create"
    · rw [if_pos hc] at h
      injection h with h
      subst h
      refine List.pairwise_cons.mpr ⟨?_, hsorted⟩
      intro x hx
      rw [← hs] at hx
      have hxf := List.mem_filter.mp ((List.mem_insertionSort actionLE).mp hx)
      exact hcreated x hxf.1 (by simpa using hxf.2)
    · rw [if_neg hc] at h
      injection h with h
      subst h
      exact hsorted

theorem get_actions_ok_head {raw : List Action} {created_at : ℚ}
    {acts : List Action}
    (h : get_actions_for_instance raw created_at = .ok acts) :
    (acts.head?).map Action.action = some "create" := by
  simp only [get_actions_for_instance] at h
  cases hs : (raw.filter
      (fun a => decide (a.action ∈ RELEVANT_EVENTS))).insertionSort actionLE with
  | nil => rw [hs] at h; exact absurd h (by simp)
  | cons a rest =>
    rw [hs] at h
    dsimp only at h
    by_cases hc : a.action ≠ "create"
    · rw [if_pos hc] at h
      injection h with h
      subst h
      rfl
    · rw [if_neg hc] at h
      injection h with h
      subst h
      simp [not_not.mp hc]

/-! Classifying the possible failures of each stage. -/

theorem get_actions_error {raw : List Action} {created_at : ℚ} {e : PyError}
    (h : get_actions_for_instance raw created_at = .error e) :
    e = .emptyHistoryRaw := by
  simp only [get_actions_for_instance] at h
  cases hs : (raw.filter
      (fun a => decide (a.action ∈ RELEVANT_EVENTS))).insertionSort actionLE with
  | nil =>
    rw [hs] at h
    dsimp only at h
    injection h with h
    exact h.symm
  | cons a rest =>
    rw [hs] at h
    dsimp only at h
    by_cases hc : a.action ≠ "create"
    · rw [if_pos hc] at h; exact absurd h (by simp)
    · rw [if_neg hc] at h; exact absurd h (by simp)

theorem stateScan_error {start : ℚ} :
    ∀ {l : List Action} {acc : String} {e : PyError},
      stateScan start l acc = .error e → e = .keyError := by
  intro l
  induction l with
  | nil => intro acc e h; simp [stateScan] at h
  | cons a rest ih =>
    intro acc e h
    rw [stateScan] at h
    by_cases ha : a.time ≤ start
    · rw [if_pos ha] at h
      cases hk : ACTION_TO_STATE_LOOKUP.lookup a.action with
      | some s => rw [hk] at h; exact ih h
      | none =>
        rw [hk] at h
        dsimp only at h
        injection h with h
        exact h.symm
    · rw [if_neg ha] at h
      exact absurd h (by simp)

theorem startingState_error {l : List Action} {start : ℚ} {e : PyError}
    (h : startingState l start = .error e) : e = .keyError := by
  cases l with
  | nil => simp [startingState] at h
  | cons a rest =>
    rw [startingState] at h
    by_cases h0 : start ≤ a.time
    · rw [if_pos h0] at h; exact absurd h (by simp)
    · rw [if_neg h0] at h; exact stateScan_error h

theorem buildIntervals_error {stop : ℚ} :
    ∀ {l : List Action} {e : PyError},
      buildIntervals stop l = .error e → e = .keyError := by
  intro l
  induction l with
  | nil => intro e h; simp [buildIntervals] at h
  | cons a rest ih =>
    intro e h
    cases rest with
    | nil =>
      rw [buildIntervals] at h
      cases hk : ACTION_TO_STATE_LOOKUP.lookup a.action with
      | some s => rw [hk] at h; exact absurd h (by simp)
      | none =>
        rw [hk] at h
        dsimp only at h
        injection h with h
        exact h.symm
    | cons b rest2 =>
      rw [buildIntervals] at h
      cases hk : ACTION_TO_STATE_LOOKUP.lookup a.action with
      | none =>
        rw [hk] at h
        dsimp only at h
        injection h with h
        exact h.symm
      | some s =>
        rw [hk] at h
        dsimp only at h
        cases hb : buildIntervals stop (b :: rest2) with
        | ok ivs => rw [hb] at h; exact absurd h (by simp)
        | error e2 =>
          rw [hb] at h
          injection h with h
          subst h
          exact ih hb

theorem charge_intervals_error {actions : List Action} {start stop : ℚ}
    {e : PyError}
    (h : charge_intervals_from_actions actions start stop = .error e) :
    (e = .emptyHistoryWindow ∧
      actions.filter (fun a => decide (a.time < stop)) = []) ∨ e = .keyError := by
  rw [charge_intervals_from_actions] at h
  cases hf : actions.filter (fun a => decide (a.time < stop)) with
  | nil =>
    rw [hf] at h
    dsimp only at h
    injection h with h
    exact Or.inl ⟨h.symm, rfl⟩
  | cons a rest =>
    rw [hf] at h
    dsimp only at h
    cases hss : startingState (a :: rest) start with
    | error e2 =>
      rw [hss] at h
      injection h with h
      subst h
      exact Or.inr (startingState_error hss)
    | ok s0 =>
      rw [hss] at h
      dsimp only at h
      cases hg : (a :: rest).filter (fun x => decide (start ≤ x.time)) with
      | nil => rw [hg] at h; exact absurd h (by simp)
      | cons b within =>
        rw [hg] at h
        dsimp only at h
        cases hb : buildIntervals stop (b :: within) with
        | ok ivs => rw [hb] at h; exact absurd h (by simp)
        | error e2 =>
          rw [hb] at h
          injection h with h
          subst h
          exact Or.inr (buildIntervals_error hb)

/-! The states reachable in reconstructed intervals. -/

theorem stateScan_ok_state {start : ℚ} :
    ∀ {l : List Action} {acc s : String}, stateScan start l acc = .ok s →
      s = acc ∨ s ∈ ACTION_TO_STATE_LOOKUP.map Prod.snd := by
  intro l
  induction l with
  | nil =>
    intro acc s h
    rw [stateScan] at h
    injection h with h
    exact Or.inl h.symm
  | cons a rest ih =>
    intro acc s h
    rw [stateScan] at h
    by_cases ha : a.time ≤ start
    · rw [if_pos ha] at h
      cases hk : ACTION_TO_STATE_LOOKUP.lookup a.action with
      | none => rw [hk] at h; exact absurd h (by simp)
      | some v =>
        rw [hk] at h
        dsimp only at h
        rcases ih h with h2 | h2
        · exact Or.inr (h2 ▸ lookup_mem_snd hk)
        · exact Or.inr h2
    · rw [if_neg ha] at h
      injection h with h
      exact Or.inl h.symm

theorem startingState_ok_state {l : List Action} {start : ℚ} {s : String}
    (hne : l ≠ []) (h : startingState l start = .ok s) :
    s = "deleted" ∨ s ∈ ACTION_TO_STATE_LOOKUP.map Prod.snd := by
  cases l with
  | nil => exact absurd rfl hne
  | cons a rest =>
    rw [startingState] at h
    by_cases h0 : start ≤ a.time
    · rw [if_pos h0] at h
      injection h with h
      exact Or.inl h.symm
    · rw [if_neg h0] at h
      rw [stateScan, if_pos (le_of_lt (lt_of_not_le h0))] at h
      cases hk : ACTION_TO_STATE_LOOKUP.lookup a.action with
      | none => rw [hk] at h; exact absurd h (by simp)
      | some v =>
        rw [hk] at h
        dsimp only at h
        rcases stateScan_ok_state h with h2 | h2
        · exact Or.inr (h2 ▸ lookup_mem_snd hk)
        · exact Or.inr h2

theorem buildIntervals_ok_states {stop : ℚ} :
    ∀ {l : List Action} {ivs : List Interval},
      buildIntervals stop l = .ok ivs →
      ∀ iv ∈ ivs, iv.state ∈ ACTION_TO_STATE_LOOKUP.map Prod.snd := by
  intro l
  induction l with
  | nil =>
    intro ivs h iv hiv
    rw [buildIntervals] at h
    injection h with h
    subst h
    simp at hiv
  | cons a rest ih =>
    intro ivs h iv hiv
    cases rest with
    | nil =>
      rw [buildIntervals] at h
      cases hk : ACTION_TO_STATE_LOOKUP.lookup a.action with
      | none => rw [hk] at h; exact absurd h (by simp)
      | some v =>
        rw [hk] at h
        dsimp only at h
        injection h with h
        subst h
        simp only [List.mem_singleton] at hiv
        subst hiv
        exact lookup_mem_snd hk
    | cons b rest2 =>
      rw [buildIntervals] at h
      cases hk : ACTION_TO_STATE_LOOKUP.lookup a.action with
      | none => rw [hk] at h; exact absurd h (by simp)
      | some v =>
        rw [hk] at h
        dsimp only at h
        cases hb : buildIntervals stop (b :: rest2) with
        | error e => rw [hb] at h; exact absurd h (by simp)
        | ok ivs2 =>
          rw [hb] at h
          injection h with h
          subst h
          rcases List.mem_cons.mp hiv with h2 | h2
          · subst h2; exact lookup_mem_snd hk
          · exact ih hb iv h2

theorem charge_intervals_ok_states {actions : List Action} {start stop : ℚ}
    {ivs : List Interval}
    (h : charge_intervals_from_actions actions start stop = .ok ivs) :
    ∀ iv ∈ ivs, iv.state = "deleted" ∨
      iv.state ∈ ACTION_TO_STATE_LOOKUP.map Prod.snd := by
  rw [charge_intervals_from_actions] at h
  cases hf : actions.filter (fun a => decide (a.time < stop)) with
  | nil => rw [hf] at h; exact absurd h (by simp)
  | cons a rest =>
    rw [hf] at h
    dsimp only at h
    cases hss : startingState (a :: rest) start with
    | error e => rw [hss] at h; exact absurd h (by simp)
    | ok s0 =>
      rw [hss] at h
      dsimp only at h
      have hs0 := startingState_ok_state (by simp) hss
      cases hg : (a :: rest).filter (fun x => decide (start ≤ x.time)) with
      | nil =>
        rw [hg] at h
        injection h with h
        subst h
        intro iv hiv
        simp only [List.mem_singleton] at hiv
        subst hiv
        exact hs0
      | cons b within =>
        rw [hg] at h
        dsimp only at h
        cases hb : buildIntervals stop (b :: within) with
        | error e => rw [hb] at h; exact absurd h (by simp)
        | ok ivs2 =>
          rw [hb] at h
          injection h with h
          subst h
          intro iv hiv
          rcases List.mem_cons.mp hiv with h2 | h2
          · subst h2; exact hs0
          · exact Or.inr (buildIntervals_ok_states hb iv h2)

/-- Destructuring a successful run of the full pipeline. -/
theorem pipeline_ok_elim {raw : List Action} {created_at start stop : ℚ}
    {ivs : List Interval}
    (h : get_charge_intervals_for_instance raw created_at start stop = .ok ivs) :
    ¬ stop < start ∧
      ∃ acts, get_actions_for_instance raw created_at = .ok acts ∧
        charge_intervals_from_actions acts start stop = .ok ivs := by
  rw [get_charge_intervals_for_instance] at h
  by_cases hr : stop < start
  · rw [if_pos hr] at h; exact absurd h (by simp)
  · rw [if_neg hr] at h
    cases ha : get_actions_for_instance raw created_at with
    | error e => rw [ha] at h; exact absurd h (by simp)
    | ok acts => rw [ha] at h; exact ⟨hr, acts, rfl, h⟩

/-- A successful reconstruction means some action survived the window-end
filter. -/
theorem charge_intervals_ok_filter_ne_nil {actions : List Action}
    {start stop : ℚ} {ivs : List Interval}
    (h : charge_intervals_from_actions actions start stop = .ok ivs) :
    actions.filter (fun a => decide (a.time < stop)) ≠ [] := by
  intro hfil
  rw [charge_intervals_from_actions, hfil] at h
  exact absurd h (by simp)

/-! Coverage facts about the spec-side reconstruction. -/

theorem spec_reconstruct_ne_nil (actions : List Action) (start stop : ℚ) :
    spec_reconstruct actions start stop ≠ [] := by
  rw [spec_reconstruct]
  cases hg : (actions.filter (fun a => decide (a.time < stop))).filter
      (fun a => decide (start ≤ a.time)) with
  | nil => simp
  | cons b within => simp

theorem spec_reconstruct_head (actions : List Action) (start stop : ℚ) :
    ((spec_reconstruct actions start stop).head?).map Interval.start =
      some start := by
  rw [spec_reconstruct]
  cases hg : (actions.filter (fun a => decide (a.time < stop))).filter
      (fun a => decide (start ≤ a.time)) with
  | nil => simp
  | cons b within => simp

theorem spec_reconstruct_last (actions : List Action) (start stop : ℚ) :
    ((spec_reconstruct actions start stop).getLast?).map Interval.stop =
      some stop := by
  rw [spec_reconstruct]
  cases hg : (actions.filter (fun a => decide (a.time < stop))).filter
      (fun a => decide (start ≤ a.time)) with
  | nil => simp
  | cons b within =>
    dsimp only
    have hb := spec_action_intervals_last stop b within
    cases hsp : spec_action_intervals (b :: within) stop with
    | nil => rw [hsp] at hb; simp at hb
    | cons iv ivs =>
      rw [hsp] at hb
      rw [List.getLast?_cons_cons]
      exact hb

theorem spec_reconstruct_chain (actions : List Action) (start stop : ℚ) :
    (spec_reconstruct actions start stop).Chain'
      (fun i j => i.stop = j.start) := by
  rw [spec_reconstruct]
  cases hg : (actions.filter (fun a => decide (a.time < stop))).filter
      (fun a => decide (start ≤ a.time)) with
  | nil => simp
  | cons b within =>
    dsimp only
    cases within with
    | nil =>
      rw [spec_action_intervals_singleton]
      exact List.chain'_cons.mpr ⟨rfl, List.chain'_singleton _⟩
    | cons c within2 =>
      rw [spec_action_intervals_cons_cons]
      have hch := spec_action_intervals_chain stop (b :: c :: within2)
      rw [spec_action_intervals_cons_cons] at hch
      exact List.chain'_cons.mpr ⟨rfl, hch⟩

theorem spec_reconstruct_le (actions : List Action) (start stop : ℚ)
    (hsort : actions.Pairwise actionLE) (hse : start ≤ stop) :
    ∀ iv ∈ spec_reconstruct actions start stop, iv.start ≤ iv.stop := by
  rw [spec_reconstruct]
  have hsort2 : (actions.filter
      (fun a => decide (a.time < stop))).Pairwise actionLE :=
    List.Pairwise.filter _ hsort
  cases hg : (actions.filter (fun a => decide (a.time < stop))).filter
      (fun a => decide (start ≤ a.time)) with
  | nil =>
    intro iv hiv
    simp only [List.mem_singleton] at hiv
    subst hiv
    exact hse
  | cons b within =>
    intro iv hiv
    have hsub : ∀ x ∈ b :: within,
        x ∈ (actions.filter (fun a => decide (a.time < stop))).filter
          (fun a => decide (start ≤ a.time)) := by
      intro x hx; rw [hg]; exact hx
    rcases List.mem_cons.mp hiv with h2 | h2
    · subst h2
      have hb := List.mem_filter.mp (hsub b (List.mem_cons_self b within))
      simpa using hb.2
    · refine spec_action_intervals_le stop (b :: within) ?_ ?_ iv h2
      · exact hg ▸ List.Pairwise.filter _ hsort2
      · intro x hx
        have hxf := List.mem_filter.mp
          (List.mem_filter.mp (hsub x hx)).1
        exact le_of_lt (by simpa using hxf.2)

/-- The charge loop computes the accumulator plus the sum of the per-interval
contributions, provided the flavor family is in its table and every interval
state is in the state table. -/
theorem chargeLoop_eq_sum (vcpus : ℚ) (fam : String) {fm : ℚ}
    (hfm : FLAVOR_TYPE_CHARGE_MULTIPLIERS.lookup fam = some fm) :
    ∀ (ivs : List Interval) (acc : ℚ),
      (∀ iv ∈ ivs, (STATE_CHARGE_MULTIPLIERS.lookup iv.state).isSome) →
      chargeLoop vcpus fam ivs acc =
        .ok (acc + (ivs.map (fun iv => ((iv.stop - iv.start) / 3600) *
          (((STATE_CHARGE_MULTIPLIERS.lookup iv.state).getD 0) *
            vcpus * fm))).sum) := by
  intro ivs
  induction ivs with
  | nil => intro acc _; simp [chargeLoop]
  | cons iv rest ih =>
    intro acc hsome
    have h1 := hsome iv (List.mem_cons_self iv rest)
    cases hk : STATE_CHARGE_MULTIPLIERS.lookup iv.state with
    | none => rw [hk] at h1; simp at h1
    | some sm =>
      rw [chargeLoop, hk]
      dsimp only
      rw [hfm]
      dsimp only
      rw [ih _ (fun x hx => hsome x (List.mem_cons_of_mem iv hx))]
      simp only [List.map_cons, List.sum_cons, hk, Option.getD_some, add_assoc]

/-!
The claims.  Each claim of the specification review is settled by exactly one
theorem below (with a witness instantiation when the theorem has hypotheses,
and a counterexample when the original wording fails on the code).
-/

/-- Claim C1 (amended): for every provider response and window with
`start <= stop` on which the pipeline returns normally, and whose fallback
creation timestamp does not exceed any relevant raw action's timestamp (so the
normalized sequence really is sorted), the returned intervals chain gap-free
from `start` to `stop` and each satisfies `start <= stop`. -/
theorem C1_coverage (raw : List Action) (created_at start stop : ℚ)
    (ivs : List Interval)
    (hfb : ∀ a ∈ raw, a.action ∈ RELEVANT_EVENTS → created_at ≤ a.time)
    (hse : start ≤ stop)
    (h : get_charge_intervals_for_instance raw created_at start stop = .ok ivs) :
    ivs ≠ [] ∧
    ((ivs.head?).map Interval.start = some start) ∧
    ((ivs.getLast?).map Interval.stop = some stop) ∧
    ivs.Chain' (fun i j => i.stop = j.start) ∧
    ∀ iv ∈ ivs, iv.start ≤ iv.stop := by
  obtain ⟨hr, acts, ha, hci⟩ := pipeline_ok_elim h
  have hsort := get_actions_ok_sorted hfb ha
  have hrel := get_actions_ok_mem ha
  have hne := charge_intervals_ok_filter_ne_nil hci
  rw [charge_intervals_eq_spec acts start stop hsort hrel hne] at hci
  injection hci with hci
  subst hci
  exact ⟨spec_reconstruct_ne_nil acts start stop,
    spec_reconstruct_head acts start stop,
    spec_reconstruct_last acts start stop,
    spec_reconstruct_chain acts start stop,
    spec_reconstruct_le acts start stop hsort hse⟩

/-- Claim C1, witness: the coverage invariant evaluated on the concrete run
`[create@0, stop@5]`, window `[2, 8)`. -/
theorem C1_coverage_witness :
    [(⟨2, 5, "active"⟩ : Interval), ⟨5, 8, "stopped"⟩] ≠ [] ∧
    (([(⟨2, 5, "active"⟩ : Interval), ⟨5, 8, "stopped"⟩].head?).map
      Interval.start = some 2) ∧
    (([(⟨2, 5, "active"⟩ : Interval), ⟨5, 8, "stopped"⟩].getLast?).map
      Interval.stop = some 8) ∧
    [(⟨2, 5, "active"⟩ : Interval), ⟨5, 8, "stopped"⟩].Chain'
      (fun i j => i.stop = j.start) ∧
    ∀ iv ∈ [(⟨2, 5, "active"⟩ : Interval), ⟨5, 8, "stopped"⟩],
      iv.start ≤ iv.stop :=
  C1_coverage [⟨"create", 0⟩, ⟨"stop", 5⟩] 0 2 8
    [⟨2, 5, "active"⟩, ⟨5, 8, "stopped"⟩] (by decide) (by decide) (by decide)

/-- Claim C1, counterexample to the original wording: with a fallback creation
timestamp later than a surviving action, the pipeline returns normally but
produces an interval whose start exceeds its end, so the invariant fails
without the sortedness proviso. -/
theorem C1_coverage_counterexample :
    get_charge_intervals_for_instance [⟨"pause", 5⟩] 10 0 20 =
        .ok [⟨0, 10, "deleted"⟩, ⟨10, 5, "active"⟩, ⟨5, 20, "suspended"⟩] ∧
    ¬ ∀ iv ∈ [(⟨0, 10, "deleted"⟩ : Interval), ⟨10, 5, "active"⟩,
        ⟨5, 20, "suspended"⟩], iv.start ≤ iv.stop := by
  decide

/-- Claim C2: on a sorted sequence of relevant actions, when some action
survives the window-end filter, the reconstruction returns exactly the
interval list the spec describes (single full-window interval when nothing
remains at or after `start`; otherwise the starting-state prefix followed by
one interval per action, the last capped at the window end), with degenerate
intervals preserved. -/
theorem C2_reconstruction (actions : List Action) (start stop : ℚ)
    (hsort : actions.Pairwise actionLE)
    (hrel : ∀ a ∈ actions, a.action ∈ RELEVANT_EVENTS)
    (hne : actions.filter (fun a => decide (a.time < stop)) ≠ []) :
    charge_intervals_from_actions actions start stop =
      .ok (spec_reconstruct actions start stop) :=
  charge_intervals_eq_spec actions start stop hsort hrel hne

/-- Claim C2, witness: the spec's boundary example — actions
`[create@0, stop@5]`, window `[2, 8)` — gives `[2,5) active`, `[5,8) stopped`. -/
theorem C2_reconstruction_witness :
    charge_intervals_from_actions [⟨"create", 0⟩, ⟨"stop", 5⟩] 2 8 =
        .ok (spec_reconstruct [⟨"create", 0⟩, ⟨"stop", 5⟩] 2 8) ∧
    spec_reconstruct [⟨"create", 0⟩, ⟨"stop", 5⟩] 2 8 =
        [⟨2, 5, "active"⟩, ⟨5, 8, "stopped"⟩] :=
  ⟨C2_reconstruction [⟨"create", 0⟩, ⟨"stop", 5⟩] 2 8 (by decide) (by decide)
      (by decide),
    by decide⟩

/-- Claim C3: on a non-empty sorted sequence of relevant actions the code's
starting-state computation matches the spec: `deleted` when the window start
is at or before the earliest action's timestamp, otherwise the mapped state of
the last action with timestamp at most the window start (last-one-wins under
ties). -/
theorem C3_starting_state (a : Action) (rest : List Action) (start : ℚ)
    (hsort : (a :: rest).Pairwise actionLE)
    (hrel : ∀ x ∈ a :: rest, x.action ∈ RELEVANT_EVENTS) :
    startingState (a :: rest) start =
      .ok (spec_start_state (a :: rest) start) :=
  startingState_eq_spec a rest start hsort hrel

/-- Claim C3, witness: for `[create@0, stop@5]` and window start `6`, the
starting state is the last action's mapped state, `stopped`. -/
theorem C3_starting_state_witness :
    startingState [⟨"create", 0⟩, ⟨"stop", 5⟩] 6 =
        .ok (spec_start_state [⟨"create", 0⟩, ⟨"stop", 5⟩] 6) ∧
    spec_start_state [⟨"create", 0⟩, ⟨"stop", 5⟩] 6 = "stopped" :=
  ⟨C3_starting_state ⟨"create", 0⟩ [⟨"stop", 5⟩] 6 (by decide) (by decide),
    by decide⟩

/-- Claim C4 (amended): for the single action `create@10` and window `[5, 8)`,
the code drops the create at the window-end filter and fails with the
window-empty history error rather than returning `[5,8) deleted`; the
pre-creation `deleted` interval appears only when the window end exceeds the
creation time, e.g. window `[5, 12)` yields `[5,10) deleted`, `[10,12)
active`. -/
theorem C4_amended_behaviour :
    get_charge_intervals_for_instance [⟨"create", 10⟩] 10 5 8 =
        .error .emptyHistoryWindow ∧
    get_charge_intervals_for_instance [⟨"create", 10⟩] 10 5 12 =
        .ok [⟨5, 10, "deleted"⟩, ⟨10, 12, "active"⟩] := by
  decide

/-- Claim C4, counterexample to the original wording: the pipeline does not
return the claimed single `deleted` interval on `[5, 8)`. -/
theorem C4_counterexample :
    get_charge_intervals_for_instance [⟨"create", 10⟩] 10 5 8 ≠
      .ok [⟨5, 8, "deleted"⟩] := by
  decide

/-- Claim C5 (amended): the normalizer keeps only relevant kinds and always
returns a sequence headed by a create action; the result is sorted ascending
by timestamp provided the fallback creation timestamp does not exceed any
relevant raw action's timestamp.  The spec's example normalizes as stated:
`[pause@3]` with fallback `0` gives `[create@0, pause@3]`. -/
theorem C5_normalizer :
    (∀ (raw : List Action) (created_at : ℚ) (acts : List Action),
        (∀ a ∈ raw, a.action ∈ RELEVANT_EVENTS → created_at ≤ a.time) →
        get_actions_for_instance raw created_at = .ok acts →
        acts.Pairwise actionLE ∧
          (acts.head?).map Action.action = some "create" ∧
          ∀ x ∈ acts, x.action ∈ RELEVANT_EVENTS) ∧
    get_actions_for_instance [⟨"pause", 3⟩] 0 =
      .ok [⟨"create", 0⟩, ⟨"pause", 3⟩] :=
  ⟨fun _ _ _ hfb h =>
      ⟨get_actions_ok_sorted hfb h, get_actions_ok_head h,
        get_actions_ok_mem h⟩,
    by decide⟩

/-- Claim C5, witness: the sortedness guarantee instantiated on the spec's
example input. -/
theorem C5_normalizer_witness :
    List.Pairwise actionLE [(⟨"create", 0⟩ : Action), ⟨"pause", 3⟩] :=
  (C5_normalizer.1 [⟨"pause", 3⟩] 0 [⟨"create", 0⟩, ⟨"pause", 3⟩]
      (by decide) (by decide)).1

/-- Claim C5, counterexample to the original wording: with fallback creation
time `10` later than the surviving `pause@3`, the synthesized create is
prepended without re-sorting, so the returned sequence is not ascending. -/
theorem C5_counterexample :
    get_actions_for_instance [⟨"pause", 3⟩] 10 =
        .ok [⟨"create", 10⟩, ⟨"pause", 3⟩] ∧
    ¬ List.Pairwise actionLE [(⟨"create", 10⟩ : Action), ⟨"pause", 3⟩] := by
  decide

/-- Claim C6 (amended): the total charge is the exact (rational) sum over the
intervals of `(stop - start) / 3600 * state_multiplier * vcpus *
flavor_multiplier`, whenever both table lookups succeed; the spec's numeric
example holds for a two-hour interval, i.e. `[0, 7200)` in seconds: active,
4 vcpus, flavor multiplier 2 and state multiplier 1 give 16. -/
theorem C6_charge_formula :
    (∀ (ivs : List Interval) (vcpus : ℚ) (fam : String) (fm : ℚ),
        FLAVOR_TYPE_CHARGE_MULTIPLIERS.lookup fam = some fm →
        (∀ iv ∈ ivs, (STATE_CHARGE_MULTIPLIERS.lookup iv.state).isSome) →
        get_total_charge_from_intervals ivs vcpus fam =
          .ok ((ivs.map (fun iv => ((iv.stop - iv.start) / 3600) *
            (((STATE_CHARGE_MULTIPLIERS.lookup iv.state).getD 0) *
              vcpus * fm))).sum)) ∧
    get_total_charge_from_intervals [⟨0, 7200, "active"⟩] 4 "g3" = .ok 16 := by
  constructor
  · intro ivs vcpus fam fm hfm hsome
    rw [get_total_charge_from_intervals,
      chargeLoop_eq_sum vcpus fam hfm ivs 0 hsome, zero_add]
  · simp [get_total_charge_from_intervals, chargeLoop,
      STATE_CHARGE_MULTIPLIERS, FLAVOR_TYPE_CHARGE_MULTIPLIERS, List.lookup]
    norm_num

/-- Claim C6, witness: the sum formula instantiated on a concrete interval
list with both lookups discharged. -/
theorem C6_charge_formula_witness :
    get_total_charge_from_intervals [⟨0, 1800, "stopped"⟩] 3 "r3" =
      .ok (([(⟨0, 1800, "stopped"⟩ : Interval)].map (fun iv =>
        ((iv.stop - iv.start) / 3600) *
          (((STATE_CHARGE_MULTIPLIERS.lookup iv.state).getD 0) *
            3 * 2))).sum) :=
  C6_charge_formula.1 [⟨0, 1800, "stopped"⟩] 3 "r3" 2 (by decide) (by decide)

/-- Claim C6, counterexample to the original wording: with instants measured
in seconds, the literal interval `[0, 2)` contributes `2 / 3600 * 1 * 4 * 2 =
1/225`, not 16. -/
theorem C6_counterexample :
    get_total_charge_from_intervals [⟨0, 2, "active"⟩] 4 "g3" =
        .ok (1 / 225) ∧ (1 / 225 : ℚ) ≠ 16 := by
  constructor
  · simp [get_total_charge_from_intervals, chargeLoop,
      STATE_CHARGE_MULTIPLIERS, FLAVOR_TYPE_CHARGE_MULTIPLIERS, List.lookup]
    norm_num
  · norm_num

/-- Claim C7: the pipeline fails with the invalid-range error exactly when the
window end precedes the window start; the quantification over every provider
response shows the action history plays no part in that failure. -/
theorem C7_invalid_range (raw : List Action) (created_at start stop : ℚ) :
    get_charge_intervals_for_instance raw created_at start stop =
        .error .invalidRange ↔ stop < start := by
  constructor
  · intro h
    by_contra hr
    rw [get_charge_intervals_for_instance, if_neg hr] at h
    cases ha : get_actions_for_instance raw created_at with
    | error e =>
      rw [ha] at h
      dsimp only at h
      injection h with h
      rw [get_actions_error ha] at h
      exact absurd h (by simp)
    | ok acts =>
      rw [ha] at h
      dsimp only at h
      rcases charge_intervals_error h with ⟨he, -⟩ | he <;> simp at he
  · intro hr
    rw [get_charge_intervals_for_instance, if_pos hr]

/-- Claim C7, witness: the inverted window `start = 10`, `stop = 5` fails with
the invalid-range error. -/
theorem C7_invalid_range_witness :
    get_charge_intervals_for_instance [] 0 10 5 = .error .invalidRange :=
  (C7_invalid_range [] 0 10 5).mpr (by decide)

/-- Claim C8: for a normalized action sequence and a valid window, the
reconstruction fails with the window-empty history error exactly when no
action survives the window-end filter. -/
theorem C8_window_empty (actions : List Action) (start stop : ℚ)
    (hrel : ∀ a ∈ actions, a.action ∈ RELEVANT_EVENTS)
    (hse : start ≤ stop) :
    (actions.filter (fun a => decide (a.time < stop)) = [] →
      charge_intervals_from_actions actions start stop =
        .error .emptyHistoryWindow) ∧
    (actions.filter (fun a => decide (a.time < stop)) ≠ [] →
      charge_intervals_from_actions actions start stop ≠
        .error .emptyHistoryWindow) := by
  constructor
  · intro hfil
    rw [charge_intervals_from_actions, hfil]
  · intro hne hcontra
    rcases charge_intervals_error hcontra with ⟨-, hfil⟩ | hkey
    · exact hne hfil
    · exact absurd hkey (by simp)

/-- Claim C8, witness: `[create@10]` with window `[5, 8)` loses its only
action to the end filter and fails with the window-empty history error. -/
theorem C8_window_empty_witness :
    charge_intervals_from_actions [⟨"create", 10⟩] 5 8 =
      .error .emptyHistoryWindow :=
  (C8_window_empty [⟨"create", 10⟩] 5 8 (by decide) (by decide)).1 (by decide)

/-- Claim C9: when filtering leaves no relevant raw action, the normalizer
fails with the raw-empty history error (the source's `IndexError` at
`actions[0]`, the failure point the spec names `EmptyHistoryError`) and with
no other kind of failure. -/
theorem C9_raw_empty (raw : List Action) (created_at : ℚ)
    (h : raw.filter (fun a => decide (a.action ∈ RELEVANT_EVENTS)) = []) :
    get_actions_for_instance raw created_at = .error .emptyHistoryRaw := by
  simp only [get_actions_for_instance, h, List.insertionSort]

/-- Claim C9, witness: a history holding only an irrelevant `snapshot` action
normalizes to the raw-empty history error. -/
theorem C9_raw_empty_witness :
    get_actions_for_instance [⟨"snapshot", 3⟩] 0 = .error .emptyHistoryRaw :=
  C9_raw_empty [⟨"snapshot", 3⟩] 0 (by decide)

/-- Claim C10: every interval produced by a normal pipeline run carries one of
the five reachable states (`active`, `deleted`, `suspended`,
`shelved_offloaded`, `stopped`) — in particular never `paused`,
`not_yet_created`, `error` or `resized` — and the state-multiplier table has
an entry for it, so the charge calculator's state lookup cannot miss. -/
theorem C10_reachable_states (raw : List Action) (created_at start stop : ℚ)
    (ivs : List Interval)
    (h : get_charge_intervals_for_instance raw created_at start stop = .ok ivs) :
    ∀ iv ∈ ivs,
      iv.state ∈ ["active", "deleted", "suspended", "shelved_offloaded",
        "stopped"] ∧
      (STATE_CHARGE_MULTIPLIERS.lookup iv.state).isSome := by
  obtain ⟨-, acts, -, hci⟩ := pipeline_ok_elim h
  intro iv hiv
  rcases charge_intervals_ok_states hci iv hiv with hd | hm
  · rw [hd]
    exact ⟨by decide, by decide⟩
  · exact action_state_values iv.state hm

/-- Claim C10, witness: the states of the concrete run `[create@10]`, window
`[5, 12)`. -/
theorem C10_reachable_states_witness :
    (⟨5, 10, "deleted"⟩ : Interval).state ∈ ["active", "deleted", "suspended",
      "shelved_offloaded", "stopped"] ∧
    (STATE_CHARGE_MULTIPLIERS.lookup
      (⟨5, 10, "deleted"⟩ : Interval).state).isSome :=
  C10_reachable_states [⟨"create", 10⟩] 10 5 12
    [⟨5, 10, "deleted"⟩, ⟨10, 12, "active"⟩] (by decide)
    ⟨5, 10, "deleted"⟩ (by decide)

end Accounting
